import Mathlib

/-!
# Verification of the To-Do App task storage engine and query layer

Shallow embedding of the repository's storage module (`MemStorage` in
`server/storage.ts`), the shared zod schemas (`shared/schema.ts`), and the
client-side filter/sort logic (`filteredAndSortedTodos` in
`client/src/pages/home.tsx`), together with theorems checking the
natural-language specification against this embedding.

JS `Map` objects are modelled as association lists in insertion order:
`Map.prototype.set` on an existing key updates the value in place (keeping
the entry's position), `Map.prototype.delete` removes the entry and reports
whether it existed, and `Map.prototype.values` iterates in insertion order.
-/

namespace TodoApp

/-- Model of `priorityEnum = z.enum(["low", "medium", "high"])` from `shared/schema.ts`. -/
inductive Priority where
  | low
  | medium
  | high
deriving DecidableEq, Repr

/-- The `Todo` row shape from `shared/schema.ts`: `id`, `text`, `completed`,
`priority`, and a nullable `category` (`none` models SQL/JS `null`). -/
structure Todo where
  id : String
  text : String
  completed : Bool
  priority : Priority
  category : Option String
deriving DecidableEq, Repr

/-- Model of `InsertTodo = z.infer<typeof insertTodoSchema>`: `id` omitted, `text`
required, the remaining fields optional (`none` = key absent from the
payload; for `category` the inner option is the nullable value). -/
structure InsertTodo where
  text : String
  completed : Option Bool
  priority : Option Priority
  category : Option (Option String)
deriving DecidableEq, Repr

/-- Model of `UpdateTodo = z.infer<typeof updateTodoSchema>`: every field partial and
`id` omitted. An outer `none` models a key absent from the payload. -/
structure UpdateTodo where
  text : Option String
  completed : Option Bool
  priority : Option Priority
  category : Option (Option String)
deriving DecidableEq, Repr

/-- A raw update request body before validation: it may carry an `id` key in
addition to the updatable fields. -/
structure RawUpdatePayload where
  id : Option String
  text : Option String
  completed : Option Bool
  priority : Option Priority
  category : Option (Option String)
deriving DecidableEq, Repr

/-- Model of `updateTodoSchema.parse` from `shared/schema.ts`: the schema is built with
`.partial().omit({ id: true })`, so a supplied `id` key is not part of the
schema and zod strips it from the parsed output; the other keys pass through. -/
def parseUpdateTodo (raw : RawUpdatePayload) : UpdateTodo :=
  { text := raw.text
    completed := raw.completed
    priority := raw.priority
    category := raw.category }

/-- State of `MemStorage`: its private `todos: Map<string, Todo>`, as an association list
in insertion order (the `users` map plays no role in the claims checked here). -/
structure MemStorage where
  todos : List (String × Todo)
deriving DecidableEq, Repr

/-- Model of `Map.prototype.get`: value of the first entry with the given key. -/
def mapGet (m : List (String × Todo)) (k : String) : Option Todo :=
  (m.find? (fun p => p.1 == k)).map Prod.snd

/-- Model of `Map.prototype.set`: update the existing entry in place (keeping its
position in iteration order) or append a fresh entry at the end. -/
def mapSet (m : List (String × Todo)) (k : String) (v : Todo) : List (String × Todo) :=
  match m with
  | [] => [(k, v)]
  | (k', v') :: rest =>
      if k' == k then (k, v) :: rest else (k', v') :: mapSet rest k v

/-- Model of `Map.prototype.delete`: remove the entry with the given key and report
whether it was present. -/
def mapDelete (m : List (String × Todo)) (k : String) : Bool × List (String × Todo) :=
  match m with
  | [] => (false, [])
  | (k', v') :: rest =>
      if k' == k then (true, rest)
      else
        let r := mapDelete rest k
        (r.1, (k', v') :: r.2)

/-- Model of `MemStorage.getAllTodos`: `Array.from(this.todos.values())`. -/
def getAllTodos (s : MemStorage) : List Todo :=
  s.todos.map Prod.snd

/-- Model of `MemStorage.getTodo`: `this.todos.get(id)`. -/
def getTodo (s : MemStorage) (id : String) : Option Todo :=
  mapGet s.todos id

/-- Model of `MemStorage.createTodo`: builds the record with `??`-defaults
(`completed ?? false`, `priority ?? "medium"`, `category ?? null`) under the
fresh id produced by `randomUUID()`, stores it, and returns it. The generated
id is passed in explicitly as `freshId`. -/
def createTodo (s : MemStorage) (freshId : String) (insertTodo : InsertTodo) :
    Todo × MemStorage :=
  let todo : Todo :=
    { id := freshId
      text := insertTodo.text
      completed := insertTodo.completed.getD false
      priority := insertTodo.priority.getD .medium
      category := insertTodo.category.getD none }
  (todo, { todos := mapSet s.todos freshId todo })

/-- The shallow merge `{ ...todo, ...updates }`: a key present in `updates`
overwrites the stored field, an absent key leaves it; `UpdateTodo` has no `id`
key, so `id` always comes from `todo`. -/
def applyUpdate (todo : Todo) (updates : UpdateTodo) : Todo :=
  { id := todo.id
    text := updates.text.getD todo.text
    completed := updates.completed.getD todo.completed
    priority := updates.priority.getD todo.priority
    category := updates.category.getD todo.category }

/-- Model of `MemStorage.updateTodo`: returns `undefined` (our `none`) and leaves the
map untouched when the id is absent; otherwise stores and returns the merged
record. -/
def updateTodo (s : MemStorage) (id : String) (updates : UpdateTodo) :
    Option Todo × MemStorage :=
  match mapGet s.todos id with
  | none => (none, s)
  | some todo =>
      let updatedTodo := applyUpdate todo updates
      (some updatedTodo, { todos := mapSet s.todos id updatedTodo })

/-- Model of `MemStorage.deleteTodo`: `this.todos.delete(id)`. -/
def deleteTodo (s : MemStorage) (id : String) : Bool × MemStorage :=
  let r := mapDelete s.todos id
  (r.1, { todos := r.2 })

/-- Loop body of `MemStorage.getCategories`: `if (todo.category) {
categories.add(todo.category) }`. The condition is JS truthiness, so both
`null` and the empty string are skipped. The `Set` is modelled as a
duplicate-free list in insertion order, `add` as append-if-absent. -/
def addCategory (categories : List String) (todo : Todo) : List String :=
  match todo.category with
  | none => categories
  | some c =>
      if c = "" then categories
      else if c ∈ categories then categories else categories ++ [c]

/-- Loop of `MemStorage.getCategories`: walk the todos in insertion order and
collect the truthy category values into the `Set`. -/
def getCategoriesRaw (s : MemStorage) : List String :=
  (s.todos.map Prod.snd).foldl addCategory []

/-! ## Query layer (`filteredAndSortedTodos` in `client/src/pages/home.tsx`) -/

/-- Model of `type FilterType = "all" | "active" | "completed"`. -/
inductive FilterType where
  | all
  | active
  | completed
deriving DecidableEq, Repr

/-- Model of `type SortType = "newest" | "oldest" | "priority" | "alphabetical"`. -/
inductive SortType where
  | newest
  | oldest
  | priority
  | alphabetical
deriving DecidableEq, Repr

/-- Model of `priorityOrder`: `high: 0, medium: 1, low: 2`. -/
def priorityOrder : Priority → Nat
  | .high => 0
  | .medium => 1
  | .low => 2

/-- Model of `String.prototype.includes(q)`: `q` occurs as a contiguous substring, over
the character lists of the two strings. -/
def charsInclude (q : List Char) : List Char → Bool
  | [] => q.isEmpty
  | c :: rest => q.isPrefixOf (c :: rest) || charsInclude q rest

/-- Model of `s.includes(q)` on strings. -/
def strIncludes (s q : String) : Bool :=
  charsInclude q.data s.data

/-- Model of `String.prototype.trim`: drop whitespace characters from both
ends of the character list. -/
def jsTrim (s : String) : String :=
  ⟨((s.data.dropWhile Char.isWhitespace).reverse.dropWhile Char.isWhitespace).reverse⟩

/-- Lexicographic comparison of character lists by code points, modelling how
JS compares strings (by code units) in relational operators and in the
default `Array.prototype.sort()` comparator. -/
def charListLt : List Char → List Char → Bool
  | _, [] => false
  | [], _ :: _ => true
  | a :: as, b :: bs =>
      if a.toNat < b.toNat then true
      else if b.toNat < a.toNat then false
      else charListLt as bs

/-- Strict comparison `a < b` on strings, by code units. -/
def strLtJs (a b : String) : Bool :=
  charListLt a.data b.data

/-- Non-strict comparison on strings: `comparator(a, b) <= 0` under the
code-unit order. -/
def strLeJs (a b : String) : Bool :=
  !(strLtJs b a)

/-- Insert one element into a list, before the first element `b` with
`le a b`; used to model the stable `Array.prototype.sort`. -/
def stableInsert {α : Type} (le : α → α → Bool) (a : α) : List α → List α
  | [] => [a]
  | b :: l => if le a b then a :: b :: l else b :: stableInsert le a l

/-- Stable insertion sort with a boolean `le` relation, modelling the
ECMAScript guarantee that `Array.prototype.sort` is stable: `le a b` encodes
`comparator(a, b) <= 0`, so ties keep their original relative order. -/
def stableSortBy {α : Type} (le : α → α → Bool) : List α → List α
  | [] => []
  | a :: l => stableInsert le a (stableSortBy le l)

/-- The status-filter stage: `filter === "active"` keeps `!t.completed`,
`filter === "completed"` keeps `t.completed`, `"all"` keeps everything. -/
def statusFilter (filter : FilterType) (todos : List Todo) : List Todo :=
  match filter with
  | .active => todos.filter (fun t => !t.completed)
  | .completed => todos.filter (fun t => t.completed)
  | .all => todos

/-- The search stage: when `searchQuery.trim()` is nonempty, keep todos whose
lowercased `text` — or lowercased `category` when present — contains the
lowercased query as a substring. -/
def searchFilter (searchQuery : String) (todos : List Todo) : List Todo :=
  if jsTrim searchQuery ≠ "" then
    let query := searchQuery.toLower
    todos.filter (fun t =>
      strIncludes t.text.toLower query ||
        (match t.category with
         | some c => strIncludes c.toLower query
         | none => false))
  else todos

/-- The category stage: `if (categoryFilter !== "all") result =
result.filter(t => t.category === categoryFilter)`; `null === v` is `false`
for every string `v`. -/
def categoryFilterStep (categoryFilter : String) (todos : List Todo) : List Todo :=
  if categoryFilter ≠ "all" then
    todos.filter (fun t => t.category == some categoryFilter)
  else todos

/-- The three filter stages of `filteredAndSortedTodos`, in source order:
status, then text search, then category. -/
def filterTodos (todos : List Todo) (filter : FilterType) (searchQuery : String)
    (categoryFilter : String) : List Todo :=
  categoryFilterStep categoryFilter (searchFilter searchQuery (statusFilter filter todos))

/-- The `result.sort(comparator)` call followed by the conditional
`result.reverse()`: `oldest` and `newest` use a constant-zero comparator (all
ties, so the stable sort is the identity), `priority` compares
`priorityOrder` ranks, `alphabetical` compares `text`; `newest` then reverses. -/
def sortStep (sortBy : SortType) (todos : List Todo) : List Todo :=
  let sorted :=
    match sortBy with
    | .oldest => stableSortBy (fun _ _ => true) todos
    | .priority =>
        stableSortBy (fun a b => decide (priorityOrder a.priority ≤ priorityOrder b.priority)) todos
    | .alphabetical => stableSortBy (fun a b => strLeJs a.text b.text) todos
    | .newest => stableSortBy (fun _ _ => true) todos
  if sortBy = .newest then sorted.reverse else sorted

/-- Model of `filteredAndSortedTodos`: filter the snapshot, then sort it. -/
def filteredAndSortedTodos (todos : List Todo) (filter : FilterType)
    (searchQuery : String) (sortBy : SortType) (categoryFilter : String) : List Todo :=
  sortStep sortBy (filterTodos todos filter searchQuery categoryFilter)

/-- Model of `MemStorage.getCategories` in full: the collected set of truthy category
values, sorted ascending by `Array.prototype.sort()`. -/
def getCategories (s : MemStorage) : List String :=
  stableSortBy strLeJs (getCategoriesRaw s)

/-- The spec's description of `getCategories`, word for word: "the set of
distinct non-null `category` values currently present across all Tasks,
deduplicated, returned in ascending lexicographic order" — with no exclusion
of the empty string. The subsequent sort makes it irrelevant which duplicate
occurrences the deduplication retains. -/
def specCategories (s : MemStorage) : List String :=
  stableSortBy strLeJs (((getAllTodos s).filterMap Todo.category).dedup)

/-! ## Concrete data used in examples and witnesses -/

/-- A concrete stored task. -/
def sampleTodo : Todo :=
  { id := "a", text := "old", completed := false, priority := .medium, category := some "Work" }

/-- A second task, distinct from `sampleTodo`. -/
def otherTodo : Todo :=
  { id := "b", text := "other", completed := true, priority := .high, category := none }

/-- A single-task store holding `sampleTodo` under its id. -/
def sampleStore : MemStorage := { todos := [("a", sampleTodo)] }

/-- An update payload with `text` and `completed` keys present and the other
keys absent. -/
def sampleUpdate : UpdateTodo :=
  { text := some "new", completed := some true, priority := none, category := none }

/-- A raw update request body that also carries an `id` key. -/
def sampleRawUpdate : RawUpdatePayload :=
  { id := some "evil", text := some "new", completed := none, priority := none,
    category := none }

/-- A store whose single task has the empty string as its category. -/
def emptyCategoryStore : MemStorage :=
  { todos := [("1", { id := "1", text := "t", completed := false, priority := .medium,
                      category := some "" })] }

/-- The store of the spec's category-derivation example: stored categories
`["Work", "home", "Work", null]` in insertion order. -/
def categoriesExampleStore : MemStorage :=
  { todos :=
      [("1", { id := "1", text := "t1", completed := false, priority := .medium,
               category := some "Work" }),
       ("2", { id := "2", text := "t2", completed := false, priority := .medium,
               category := some "home" }),
       ("3", { id := "3", text := "t3", completed := false, priority := .medium,
               category := some "Work" }),
       ("4", { id := "4", text := "t4", completed := false, priority := .medium,
               category := none })] }

/-- Task `A(high)` of the spec's priority-sort example. -/
def todoA : Todo :=
  { id := "a", text := "A", completed := false, priority := .high, category := none }

/-- Task `B(medium)` of the spec's priority-sort example. -/
def todoB : Todo :=
  { id := "b", text := "B", completed := false, priority := .medium, category := none }

/-- Task `C(high)` of the spec's priority-sort example. -/
def todoC : Todo :=
  { id := "c", text := "C", completed := false, priority := .high, category := none }

/-- A task whose category is the literal string "all", colliding with the
query layer's no-category-filter sentinel. -/
def allCategoryTodo : Todo :=
  { id := "x", text := "t", completed := false, priority := .medium, category := some "all" }

/-! ## Helper lemmas about the `Map` model -/

theorem mapGet_nil (k : String) : mapGet [] k = none := rfl

theorem mapGet_cons (k' : String) (v' : Todo) (rest : List (String × Todo)) (k : String) :
    mapGet ((k', v') :: rest) k = if k' == k then some v' else mapGet rest k := by
  by_cases h : (k' == k) = true
  · simp [mapGet, List.find?, h]
  · have h' : (k' == k) = false := by simpa using h
    simp [mapGet, List.find?, h']

theorem mapGet_mapSet_self (m : List (String × Todo)) (k : String) (v : Todo) :
    mapGet (mapSet m k v) k = some v := by
  induction m with
  | nil => simp [mapSet, mapGet, List.find?]
  | cons p rest ih =>
    obtain ⟨k', v'⟩ := p
    by_cases h : (k' == k) = true
    · simp [mapSet, h, mapGet_cons]
    · simp [mapSet, h, mapGet_cons, ih]

theorem map_snd_id_mapSet (m : List (String × Todo)) (k : String) (t t' : Todo)
    (hget : mapGet m k = some t) (hid : t'.id = t.id) :
    (mapSet m k t').map (fun p => p.2.id) = m.map (fun p => p.2.id) := by
  induction m with
  | nil => simp [mapGet_nil] at hget
  | cons p rest ih =>
    obtain ⟨k', v'⟩ := p
    by_cases h : (k' == k) = true
    · rw [mapGet_cons, if_pos h] at hget
      injection hget with hv
      simp [mapSet, h, hid, hv]
    · rw [mapGet_cons, if_neg h] at hget
      simp [mapSet, h, ih hget]

theorem mapDelete_fst (m : List (String × Todo)) (k : String) :
    (mapDelete m k).1 = (mapGet m k).isSome := by
  induction m with
  | nil => simp [mapDelete, mapGet_nil]
  | cons p rest ih =>
    obtain ⟨k', v'⟩ := p
    by_cases h : (k' == k) = true
    · simp [mapDelete, h, mapGet_cons]
    · simp [mapDelete, h, mapGet_cons, ih]

theorem mapDelete_of_absent (m : List (String × Todo)) (k : String)
    (h : mapGet m k = none) : mapDelete m k = (false, m) := by
  induction m with
  | nil => rfl
  | cons p rest ih =>
    obtain ⟨k', v'⟩ := p
    by_cases hk : (k' == k) = true
    · rw [mapGet_cons, if_pos hk] at h
      exact absurd h (by simp)
    · rw [mapGet_cons, if_neg hk] at h
      simp [mapDelete, hk, ih h]

theorem mapGet_of_not_mem_keys (m : List (String × Todo)) (k : String)
    (h : k ∉ m.map Prod.fst) : mapGet m k = none := by
  induction m with
  | nil => rfl
  | cons p rest ih =>
    obtain ⟨k', v'⟩ := p
    simp only [List.map_cons, List.mem_cons] at h
    push_neg at h
    have hk : (k' == k) = false := by
      simp [beq_eq_false_iff_ne]
      exact fun hkk => h.1 hkk.symm
    simp [mapGet_cons, hk, ih h.2]

theorem mapGet_mapDelete_self (m : List (String × Todo)) (k : String)
    (hkeys : (m.map Prod.fst).Nodup) : mapGet (mapDelete m k).2 k = none := by
  induction m with
  | nil => rfl
  | cons p rest ih =>
    obtain ⟨k', v'⟩ := p
    simp only [List.map_cons, List.nodup_cons] at hkeys
    by_cases h : (k' == k) = true
    · have hkk : k' = k := by simpa using h
      subst hkk
      simpa [mapDelete, h] using mapGet_of_not_mem_keys rest k' hkeys.1
    · simp [mapDelete, h, mapGet_cons, ih hkeys.2]

/-! ## Helper lemmas about the stable sort -/

theorem stableInsert_const_true {α : Type} (a : α) (l : List α) :
    stableInsert (fun _ _ => true) a l = a :: l := by
  cases l <;> simp [stableInsert]

theorem stableSortBy_const_true {α : Type} (l : List α) :
    stableSortBy (fun _ _ => true) l = l := by
  induction l with
  | nil => rfl
  | cons a l ih => simp [stableSortBy, ih, stableInsert_const_true]

theorem stableInsert_perm {α : Type} (le : α → α → Bool) (a : α) (l : List α) :
    List.Perm (stableInsert le a l) (a :: l) := by
  induction l with
  | nil => rfl
  | cons b l ih =>
    by_cases h : le a b = true
    · simp [stableInsert, h]
    · have h' : le a b = false := by simpa using h
      simp only [stableInsert, h', Bool.false_eq_true, if_false]
      exact (ih.cons b).trans (List.Perm.swap a b l)

theorem stableSortBy_perm {α : Type} (le : α → α → Bool) (l : List α) :
    List.Perm (stableSortBy le l) l := by
  induction l with
  | nil => rfl
  | cons a l ih =>
    exact (stableInsert_perm le a (stableSortBy le l)).trans (ih.cons a)

theorem pairwise_stableInsert {α : Type} (le : α → α → Bool)
    (htot : ∀ a b, le a b = true ∨ le b a = true)
    (htrans : ∀ a b c, le a b = true → le b c = true → le a c = true)
    (a : α) (l : List α) (h : List.Pairwise (fun x y => le x y = true) l) :
    List.Pairwise (fun x y => le x y = true) (stableInsert le a l) := by
  induction l with
  | nil => simp [stableInsert]
  | cons b l ih =>
    rcases h with _ | ⟨hb, hl⟩
    by_cases hab : le a b = true
    · simp only [stableInsert, hab, if_true]
      refine List.Pairwise.cons ?_ (List.Pairwise.cons hb hl)
      intro x hx
      rcases List.mem_cons.mp hx with rfl | hx
      · exact hab
      · exact htrans a b x hab (hb x hx)
    · have hba : le b a = true := (htot a b).resolve_left hab
      have hab' : le a b = false := by simpa using hab
      simp only [stableInsert, hab', Bool.false_eq_true, if_false]
      refine List.Pairwise.cons ?_ (ih hl)
      intro x hx
      rcases List.mem_cons.mp ((stableInsert_perm le a l).mem_iff.mp hx) with rfl | hx'
      · exact hba
      · exact hb x hx'

theorem pairwise_stableSortBy {α : Type} (le : α → α → Bool)
    (htot : ∀ a b, le a b = true ∨ le b a = true)
    (htrans : ∀ a b c, le a b = true → le b c = true → le a c = true)
    (l : List α) :
    List.Pairwise (fun x y => le x y = true) (stableSortBy le l) := by
  induction l with
  | nil => exact List.Pairwise.nil
  | cons a l ih => exact pairwise_stableInsert le htot htrans a (stableSortBy le l) ih

theorem filter_stableInsert_of_ne {α β : Type} [LinearOrder β] [DecidableEq β]
    (key : α → β) (x : α) (m : List α) (k : β) (hx : ¬ key x = k) :
    (stableInsert (fun a b => decide (key a ≤ key b)) x m).filter
        (fun a => decide (key a = k)) =
      m.filter (fun a => decide (key a = k)) := by
  induction m with
  | nil => simp [stableInsert, hx]
  | cons b m ih =>
    by_cases h : key x ≤ key b
    · simp [stableInsert, h, hx]
    · simp only [stableInsert, decide_eq_true_eq, h, if_false]
      by_cases hb : key b = k
      · simp [List.filter, hb, ih]
      · simp [List.filter, hb, ih]

theorem filter_stableInsert_of_eq {α β : Type} [LinearOrder β] [DecidableEq β]
    (key : α → β) (x : α) (m : List α) (k : β) (hx : key x = k) :
    (stableInsert (fun a b => decide (key a ≤ key b)) x m).filter
        (fun a => decide (key a = k)) =
      x :: m.filter (fun a => decide (key a = k)) := by
  induction m with
  | nil => simp [stableInsert, hx]
  | cons b m ih =>
    by_cases h : key x ≤ key b
    · simp only [stableInsert, decide_eq_true_eq, h, if_true]
      simp [List.filter_cons, hx]
    · have hlt : key b < key x := not_le.mp h
      have hb : ¬ key b = k := by
        rw [← hx]
        exact ne_of_lt hlt
      simp only [stableInsert, decide_eq_true_eq, h, if_false]
      simp [List.filter_cons, hb, ih]

theorem filter_key_stableSortBy {α β : Type} [LinearOrder β] [DecidableEq β]
    (key : α → β) (l : List α) (k : β) :
    (stableSortBy (fun a b => decide (key a ≤ key b)) l).filter
        (fun a => decide (key a = k)) =
      l.filter (fun a => decide (key a = k)) := by
  induction l with
  | nil => rfl
  | cons x l ih =>
    by_cases hx : key x = k
    · rw [stableSortBy, filter_stableInsert_of_eq key x _ k hx, ih]
      simp [List.filter, hx]
    · rw [stableSortBy, filter_stableInsert_of_ne key x _ k hx, ih]
      simp [List.filter, hx]

/-! ## Helper lemmas about the code-unit string order -/

theorem charListLt_asymm : ∀ as bs : List Char,
    charListLt as bs = true → charListLt bs as = false := by
  intro as
  induction as with
  | nil =>
    intro bs h
    cases bs with
    | nil => simp [charListLt] at h
    | cons b bs => simp [charListLt]
  | cons a as ih =>
    intro bs h
    cases bs with
    | nil => simp [charListLt] at h
    | cons b bs =>
      by_cases hab : a.toNat < b.toNat
      · have hba : ¬ b.toNat < a.toNat := Nat.lt_asymm hab
        simp [charListLt, hba, hab]
      · by_cases hba : b.toNat < a.toNat
        · simp [charListLt, hab, hba] at h
        · simp only [charListLt, hab, hba, if_false] at h
          simp [charListLt, hab, hba, ih bs h]

theorem charListLt_negtrans : ∀ cs bs as : List Char,
    charListLt bs as = false → charListLt cs bs = false →
    charListLt cs as = false := by
  intro cs
  induction cs with
  | nil =>
    intro bs as h1 h2
    cases as with
    | nil => rfl
    | cons a as' =>
      cases bs with
      | nil => simp [charListLt] at h1
      | cons b bs' => simp [charListLt] at h2
  | cons c cs' ih =>
    intro bs as h1 h2
    cases as with
    | nil => rfl
    | cons a as' =>
      cases bs with
      | nil => simp [charListLt] at h1
      | cons b bs' =>
        by_cases hba : b.toNat < a.toNat
        · simp [charListLt, hba] at h1
        · by_cases hcb : c.toNat < b.toNat
          · simp [charListLt, hcb] at h2
          · have hab : a.toNat ≤ b.toNat := Nat.le_of_not_lt hba
            have hbc : b.toNat ≤ c.toNat := Nat.le_of_not_lt hcb
            have hca : ¬ c.toNat < a.toNat := Nat.not_lt.mpr (Nat.le_trans hab hbc)
            by_cases hac : a.toNat < c.toNat
            · simp [charListLt, hca, hac]
            · have hab' : ¬ a.toNat < b.toNat := fun h =>
                hac (Nat.lt_of_lt_of_le h hbc)
              have hbc' : ¬ b.toNat < c.toNat := fun h =>
                hac (Nat.lt_of_le_of_lt hab h)
              simp only [charListLt, hba, hab', if_false] at h1
              simp only [charListLt, hcb, hbc', if_false] at h2
              simp only [charListLt, hca, hac, if_false]
              exact ih bs' as' h1 h2

theorem strLeJs_total (a b : String) : strLeJs a b = true ∨ strLeJs b a = true := by
  by_cases h : charListLt b.data a.data = true
  · right
    simp [strLeJs, strLtJs, charListLt_asymm _ _ h]
  · left
    simp only [strLeJs, strLtJs, Bool.not_eq_true] at *
    simp [h]

theorem strLeJs_trans (a b c : String) (h1 : strLeJs a b = true)
    (h2 : strLeJs b c = true) : strLeJs a c = true := by
  simp only [strLeJs, strLtJs, Bool.not_eq_true', Bool.not_eq_true] at *
  exact charListLt_negtrans c.data b.data a.data h1 h2

/-! ## Helper lemmas about the category set -/

theorem mem_addCategory (acc : List String) (t : Todo) (x : String) :
    x ∈ addCategory acc t ↔ x ∈ acc ∨ (t.category = some x ∧ x ≠ "") := by
  cases hcat : t.category with
  | none => simp [addCategory, hcat]
  | some c =>
    by_cases hc : c = ""
    · subst hc
      simp only [addCategory, hcat, if_pos rfl]
      constructor
      · exact Or.inl
      · rintro (hx | ⟨hsome, hne⟩)
        · exact hx
        · injection hsome with hcx
          exact absurd hcx.symm hne
    · by_cases hmem : c ∈ acc
      · simp only [addCategory, hcat, if_neg hc, if_pos hmem]
        constructor
        · exact Or.inl
        · rintro (hx | ⟨hsome, _⟩)
          · exact hx
          · injection hsome with hcx
            exact hcx ▸ hmem
      · simp only [addCategory, hcat, if_neg hc, if_neg hmem, List.mem_append,
          List.mem_singleton, Option.some.injEq]
        constructor
        · rintro (hx | rfl)
          · exact Or.inl hx
          · exact Or.inr ⟨rfl, hc⟩
        · rintro (hx | ⟨rfl, _⟩)
          · exact Or.inl hx
          · exact Or.inr rfl

theorem nodup_addCategory (acc : List String) (t : Todo) (h : acc.Nodup) :
    (addCategory acc t).Nodup := by
  cases hcat : t.category with
  | none => simpa [addCategory, hcat] using h
  | some c =>
    by_cases hc : c = ""
    · simpa [addCategory, hcat, hc] using h
    · by_cases hmem : c ∈ acc
      · simpa [addCategory, hcat, hc, hmem] using h
      · simp only [addCategory, hcat, if_neg hc, if_neg hmem]
        rw [← List.concat_eq_append]
        exact h.concat hmem

theorem mem_foldl_addCategory (todos : List Todo) :
    ∀ (acc : List String) (x : String),
      x ∈ todos.foldl addCategory acc ↔
        x ∈ acc ∨ ∃ t, t ∈ todos ∧ t.category = some x ∧ x ≠ "" := by
  induction todos with
  | nil => simp
  | cons t todos ih =>
    intro acc x
    rw [List.foldl_cons, ih, mem_addCategory]
    constructor
    · rintro ((hx | ⟨hcat, hne⟩) | ⟨t', ht', hcat', hne'⟩)
      · exact Or.inl hx
      · exact Or.inr ⟨t, List.mem_cons_self t todos, hcat, hne⟩
      · exact Or.inr ⟨t', List.mem_cons_of_mem t ht', hcat', hne'⟩
    · rintro (hx | ⟨t', ht', hcat', hne'⟩)
      · exact Or.inl (Or.inl hx)
      · rcases List.mem_cons.mp ht' with rfl | ht''
        · exact Or.inl (Or.inr ⟨hcat', hne'⟩)
        · exact Or.inr ⟨t', ht'', hcat', hne'⟩

theorem nodup_foldl_addCategory (todos : List Todo) :
    ∀ acc : List String, acc.Nodup → (todos.foldl addCategory acc).Nodup := by
  induction todos with
  | nil => exact fun acc h => h
  | cons t todos ih =>
    intro acc h
    exact ih (addCategory acc t) (nodup_addCategory acc t h)

theorem mem_getCategoriesRaw (s : MemStorage) (x : String) :
    x ∈ getCategoriesRaw s ↔
      (∃ t, t ∈ getAllTodos s ∧ t.category = some x) ∧ x ≠ "" := by
  rw [getCategoriesRaw, mem_foldl_addCategory]
  simp only [List.not_mem_nil, false_or, getAllTodos]
  constructor
  · rintro ⟨t, ht, hcat, hne⟩
    exact ⟨⟨t, ht, hcat⟩, hne⟩
  · rintro ⟨⟨t, ht, hcat⟩, hne⟩
    exact ⟨t, ht, hcat, hne⟩

theorem nodup_getCategoriesRaw (s : MemStorage) : (getCategoriesRaw s).Nodup :=
  nodup_foldl_addCategory _ [] List.nodup_nil

/-- Filtering todos by a priority value is the same as filtering by the
corresponding `priorityOrder` rank, since `priorityOrder` is injective. -/
theorem priority_filter_fun_eq (p : Priority) :
    (fun t : Todo => t.priority == p) =
      (fun t : Todo => decide (priorityOrder t.priority = priorityOrder p)) := by
  funext t
  rcases t with ⟨i, x, c, pr, cat⟩
  cases pr <;> cases p <;> rfl

/-! ## Claim theorems -/

/-- C1: for every stored Task `t` and every update request body `raw` — even
one that itself carries an `id` key — updating via the validated payload
`parseUpdateTodo raw` leaves both the returned and the stored record's `id`
field equal to `t.id`: `updateTodoSchema` omits `id`, so the supplied id is
stripped rather than merged into the record. -/
theorem updateTask_ignores_supplied_id (s : MemStorage) (id : String) (t : Todo)
    (raw : RawUpdatePayload) (h : mapGet s.todos id = some t) :
    ((updateTodo s id (parseUpdateTodo raw)).1.map Todo.id = some t.id) ∧
    ((getTodo (updateTodo s id (parseUpdateTodo raw)).2 id).map Todo.id = some t.id) := by
  constructor
  · simp [updateTodo, h, applyUpdate]
  · simp [updateTodo, h, getTodo, mapGet_mapSet_self, applyUpdate]

/-- Witness for C1 at a concrete store and a payload that supplies an id. -/
theorem updateTask_ignores_supplied_id_witness :
    ((updateTodo sampleStore "a" (parseUpdateTodo sampleRawUpdate)).1.map Todo.id =
      some "a") ∧
    ((getTodo (updateTodo sampleStore "a" (parseUpdateTodo sampleRawUpdate)).2 "a").map
        Todo.id = some "a") :=
  updateTask_ignores_supplied_id sampleStore "a" sampleTodo sampleRawUpdate (by decide)

/-- C2: for every stored Task `t` and partial update `u` (which cannot contain
`id`), `updateTodo t.id u` stores and returns the shallow merge of `t` with
`u`: each field whose key is present in `u` carries the value from `u`, each
field whose key is absent keeps `t`'s prior value, and `id` is unchanged. -/
theorem updateTask_partial_merge (s : MemStorage) (id : String) (t : Todo)
    (u : UpdateTodo) (h : mapGet s.todos id = some t) :
    updateTodo s id u =
        (some (applyUpdate t u), ⟨mapSet s.todos id (applyUpdate t u)⟩) ∧
    getTodo (updateTodo s id u).2 id = some (applyUpdate t u) ∧
    (applyUpdate t u).id = t.id ∧
    (∀ v, u.text = some v → (applyUpdate t u).text = v) ∧
    (u.text = none → (applyUpdate t u).text = t.text) ∧
    (∀ v, u.completed = some v → (applyUpdate t u).completed = v) ∧
    (u.completed = none → (applyUpdate t u).completed = t.completed) ∧
    (∀ v, u.priority = some v → (applyUpdate t u).priority = v) ∧
    (u.priority = none → (applyUpdate t u).priority = t.priority) ∧
    (∀ v, u.category = some v → (applyUpdate t u).category = v) ∧
    (u.category = none → (applyUpdate t u).category = t.category) := by
  refine ⟨by simp [updateTodo, h], by simp [updateTodo, h, getTodo, mapGet_mapSet_self],
    rfl, ?_, ?_, ?_, ?_, ?_, ?_, ?_, ?_⟩
  · intro v hv
    simp [applyUpdate, hv]
  · intro hv
    simp [applyUpdate, hv]
  · intro v hv
    simp [applyUpdate, hv]
  · intro hv
    simp [applyUpdate, hv]
  · intro v hv
    simp [applyUpdate, hv]
  · intro hv
    simp [applyUpdate, hv]
  · intro v hv
    simp [applyUpdate, hv]
  · intro hv
    simp [applyUpdate, hv]

/-- Witness for C2 at a concrete store and a payload updating two fields. -/
theorem updateTask_partial_merge_witness :
    updateTodo sampleStore "a" sampleUpdate =
        (some (applyUpdate sampleTodo sampleUpdate),
          ⟨mapSet sampleStore.todos "a" (applyUpdate sampleTodo sampleUpdate)⟩) ∧
    getTodo (updateTodo sampleStore "a" sampleUpdate).2 "a" =
        some (applyUpdate sampleTodo sampleUpdate) ∧
    (applyUpdate sampleTodo sampleUpdate).id = sampleTodo.id ∧
    (∀ v, sampleUpdate.text = some v → (applyUpdate sampleTodo sampleUpdate).text = v) ∧
    (sampleUpdate.text = none →
      (applyUpdate sampleTodo sampleUpdate).text = sampleTodo.text) ∧
    (∀ v, sampleUpdate.completed = some v →
      (applyUpdate sampleTodo sampleUpdate).completed = v) ∧
    (sampleUpdate.completed = none →
      (applyUpdate sampleTodo sampleUpdate).completed = sampleTodo.completed) ∧
    (∀ v, sampleUpdate.priority = some v →
      (applyUpdate sampleTodo sampleUpdate).priority = v) ∧
    (sampleUpdate.priority = none →
      (applyUpdate sampleTodo sampleUpdate).priority = sampleTodo.priority) ∧
    (∀ v, sampleUpdate.category = some v →
      (applyUpdate sampleTodo sampleUpdate).category = v) ∧
    (sampleUpdate.category = none →
      (applyUpdate sampleTodo sampleUpdate).category = sampleTodo.category) :=
  updateTask_partial_merge sampleStore "a" sampleTodo sampleUpdate (by decide)

/-- C4: updating an id that is not stored returns the absent signal and leaves
the store unchanged; `updateTodo` is a total function, so no fault is raised. -/
theorem updateTask_absent_id (s : MemStorage) (id : String) (u : UpdateTodo)
    (h : mapGet s.todos id = none) :
    updateTodo s id u = (none, s) := by
  simp [updateTodo, h]

/-- Witness for C4 at a concrete store and an id not present in it. -/
theorem updateTask_absent_id_witness :
    updateTodo sampleStore "zzz" sampleUpdate = (none, sampleStore) :=
  updateTask_absent_id sampleStore "zzz" sampleUpdate (by decide)

/-- C5: on a store with distinct keys (the `Map` representation invariant),
`deleteTodo x` returns `true` exactly when a task with id `x` was stored and
removes it; when `x` is absent it returns `false` and leaves the store
unchanged, and in particular a second delete of the same id returns `false`. -/
theorem deleteTask_spec (s : MemStorage) (x : String)
    (hkeys : (s.todos.map Prod.fst).Nodup) :
    ((deleteTodo s x).1 = (mapGet s.todos x).isSome) ∧
    (mapGet s.todos x = none → deleteTodo s x = (false, s)) ∧
    (getTodo (deleteTodo s x).2 x = none) ∧
    ((deleteTodo (deleteTodo s x).2 x).1 = false) := by
  refine ⟨?_, ?_, ?_, ?_⟩
  · simpa [deleteTodo] using mapDelete_fst s.todos x
  · intro h
    simp [deleteTodo, mapDelete_of_absent s.todos x h]
  · simpa [deleteTodo, getTodo] using mapGet_mapDelete_self s.todos x hkeys
  · have h2 : mapGet (mapDelete s.todos x).2 x = none :=
      mapGet_mapDelete_self s.todos x hkeys
    simp [deleteTodo, mapDelete_fst, h2]

/-- Witness for C5 at a concrete single-task store. -/
theorem deleteTask_spec_witness :
    ((deleteTodo sampleStore "a").1 = (mapGet sampleStore.todos "a").isSome) ∧
    (mapGet sampleStore.todos "a" = none → deleteTodo sampleStore "a" = (false, sampleStore)) ∧
    (getTodo (deleteTodo sampleStore "a").2 "a" = none) ∧
    ((deleteTodo (deleteTodo sampleStore "a").2 "a").1 = false) :=
  deleteTask_spec sampleStore "a" (by decide)

/-- C8: looking up the id of the record returned by `createTodo` returns that
record: `getTodo (createTodo fields).id` is the creation result. -/
theorem createTask_getTask_roundtrip (s : MemStorage) (freshId : String)
    (fields : InsertTodo) :
    getTodo (createTodo s freshId fields).2 (createTodo s freshId fields).1.id =
      some (createTodo s freshId fields).1 := by
  simp [createTodo, getTodo, mapGet_mapSet_self]

/-- C9: updating a stored task never changes the sequence of ids reported by
`getAllTodos`: the entry keeps its position in the snapshot order, so its rank
under the newest/oldest sorts is unchanged. -/
theorem updateTask_preserves_snapshot_order (s : MemStorage) (id : String)
    (t : Todo) (u : UpdateTodo) (h : mapGet s.todos id = some t) :
    (getAllTodos (updateTodo s id u).2).map Todo.id = (getAllTodos s).map Todo.id := by
  simp only [updateTodo, h, getAllTodos]
  rw [List.map_map, List.map_map]
  exact map_snd_id_mapSet s.todos id t (applyUpdate t u) h rfl

/-- Witness for C9 at a concrete store and update. -/
theorem updateTask_preserves_snapshot_order_witness :
    (getAllTodos (updateTodo sampleStore "a" sampleUpdate).2).map Todo.id =
      (getAllTodos sampleStore).map Todo.id :=
  updateTask_preserves_snapshot_order sampleStore "a" sampleTodo sampleUpdate (by decide)

/-- C3 counterexample: a stored task whose category is the empty string. The
spec-worded reading (`specCategories`) returns `[""]` — the empty string is a
distinct non-null category — but `getCategories` uses JS truthiness
(`if (todo.category)`) and drops it, returning `[]`. -/
theorem getCategories_empty_string_counterexample :
    specCategories emptyCategoryStore = [""] ∧
    getCategories emptyCategoryStore = [] := by
  constructor <;> rfl

/-- C3 (amended): `getCategories` returns exactly the distinct non-null and
non-empty category values currently present (JS truthiness also drops the
empty string), deduplicated and in ascending lexicographic order; on the
spec's example store with categories `["Work", "home", "Work", null]` it
returns `["Work", "home"]`. -/
theorem getCategories_spec (s : MemStorage) :
    (∀ c, c ∈ getCategories s ↔
        ((∃ t, t ∈ getAllTodos s ∧ t.category = some c) ∧ c ≠ "")) ∧
    (getCategories s).Nodup ∧
    List.Pairwise (fun a b : String => strLeJs a b = true) (getCategories s) ∧
    getCategories categoriesExampleStore = ["Work", "home"] := by
  refine ⟨?_, ?_, ?_, by decide⟩
  · intro c
    rw [getCategories, (stableSortBy_perm _ _).mem_iff, mem_getCategoriesRaw]
  · exact ((stableSortBy_perm _ _).nodup_iff).mpr (nodup_getCategoriesRaw s)
  · exact pairwise_stableSortBy strLeJs strLeJs_total strLeJs_trans
      (getCategoriesRaw s)

/-- C6: sorting by priority yields a view ordered by `priorityOrder` rank
(every high before every medium before every low), is a permutation of the
filtered snapshot, keeps equal-priority tasks in their snapshot order, and on
the spec's example `[A(high), B(medium), C(high)]` yields `[A, C, B]`. -/
theorem priority_sort_spec (todos : List Todo) (f : FilterType) (q cf : String) :
    List.Pairwise
      (fun a b : Todo => priorityOrder a.priority ≤ priorityOrder b.priority)
      (filteredAndSortedTodos todos f q .priority cf) ∧
    (∀ p : Priority,
      (filteredAndSortedTodos todos f q .priority cf).filter
          (fun t => t.priority == p) =
        (filterTodos todos f q cf).filter (fun t => t.priority == p)) ∧
    List.Perm (filteredAndSortedTodos todos f q .priority cf)
      (filterTodos todos f q cf) ∧
    filteredAndSortedTodos [todoA, todoB, todoC] .all "" .priority "all" =
      [todoA, todoC, todoB] := by
  have hrw : filteredAndSortedTodos todos f q .priority cf =
      stableSortBy
        (fun a b => decide (priorityOrder a.priority ≤ priorityOrder b.priority))
        (filterTodos todos f q cf) := rfl
  refine ⟨?_, ?_, ?_, by decide⟩
  · rw [hrw]
    have hpw := pairwise_stableSortBy
      (fun a b : Todo => decide (priorityOrder a.priority ≤ priorityOrder b.priority))
      (fun a b => by
        rcases Nat.le_total (priorityOrder a.priority) (priorityOrder b.priority)
          with h | h
        · exact Or.inl (decide_eq_true h)
        · exact Or.inr (decide_eq_true h))
      (fun a b c hab hbc =>
        decide_eq_true (le_trans (of_decide_eq_true hab) (of_decide_eq_true hbc)))
      (filterTodos todos f q cf)
    exact hpw.imp (fun h => of_decide_eq_true h)
  · intro p
    rw [priority_filter_fun_eq p, hrw]
    exact filter_key_stableSortBy (fun t : Todo => priorityOrder t.priority)
      (filterTodos todos f q cf) (priorityOrder p)
  · rw [hrw]
    exact stableSortBy_perm _ _

/-- C7: on any filtered snapshot, the oldest sort is the identity (a
constant-zero comparator under a stable sort changes nothing) and the newest
sort is exactly the reverse of the filtered snapshot order. -/
theorem newest_oldest_sort_spec (todos : List Todo) (f : FilterType)
    (q cf : String) :
    filteredAndSortedTodos todos f q .oldest cf = filterTodos todos f q cf ∧
    filteredAndSortedTodos todos f q .newest cf =
      (filterTodos todos f q cf).reverse := by
  constructor
  · simp [filteredAndSortedTodos, sortStep, stableSortBy_const_true]
  · simp [filteredAndSortedTodos, sortStep, stableSortBy_const_true]

/-- C10 counterexample: on the snapshot containing only `allCategoryTodo` — a
task whose category is the literal string "all" — the category-filter value
"all" returns exactly that task, so it is not true that no category-filter
value returns just that task. -/
theorem category_filter_sentinel_counterexample :
    allCategoryTodo.category = some "all" ∧
    filteredAndSortedTodos [allCategoryTodo] .all "" .oldest "all" =
      [allCategoryTodo] := by
  constructor <;> rfl

/-- C10 (amended): "all" is the no-category-filter sentinel — it applies no
filtering — and any other value `cf` selects exactly the tasks whose category
equals `cf`; consequently, on every snapshot that contains a task `t` with
category "all" together with at least one other task, no category-filter
value returns just `t`. -/
theorem category_filter_spec :
    (∀ l : List Todo, categoryFilterStep "all" l = l) ∧
    (∀ (l : List Todo) (cf : String), cf ≠ "all" →
      categoryFilterStep cf l = l.filter (fun t => t.category == some cf)) ∧
    (∀ (l : List Todo) (t u : Todo) (cf : String),
      t ∈ l → u ∈ l → u ≠ t → t.category = some "all" →
      categoryFilterStep cf l ≠ [t]) := by
  refine ⟨?_, ?_, ?_⟩
  · intro l
    simp [categoryFilterStep]
  · intro l cf h
    simp [categoryFilterStep, h]
  · intro l t u cf ht hu hne hcat heq
    by_cases hcf : cf = "all"
    · subst hcf
      have heq' : l = [t] := by simpa [categoryFilterStep] using heq
      rw [heq'] at hu
      exact hne (List.mem_singleton.mp hu)
    · rw [categoryFilterStep, if_pos hcf] at heq
      have htf : t ∈ l.filter (fun t' => t'.category == some cf) := by
        rw [heq]
        exact List.mem_singleton_self t
      have hpred := (List.mem_filter.mp htf).2
      rw [hcat] at hpred
      simp only [beq_iff_eq, Option.some.injEq] at hpred
      exact hcf hpred.symm

/-- Witness for C10's amended claim at a two-task snapshot. -/
theorem category_filter_spec_witness :
    categoryFilterStep "Work" [allCategoryTodo, otherTodo] ≠ [allCategoryTodo] :=
  category_filter_spec.2.2 [allCategoryTodo, otherTodo] allCategoryTodo otherTodo
    "Work" (by decide) (by decide) (by decide) (by decide)

end TodoApp
